import Mathlib

/-!
Shallow embedding of `src/cbz_refactor.py` (CBZ refactoring tool) and proofs
about its batch planner, filename classifier, archive transcoder and
directory-processing steps.

Conventions of the embedding:
* Python non-negative `int`s are `ℕ`; where the code can receive negative or
  zero values from the parser (`parse_batch_sizes`) a separate `ℤ`-valued
  model with explicit error results is used.
* Python byte strings are `List ℕ` (byte sequences); file names are `String`.
* A raised exception is modelled as `Option.none` / an explicit error flag.
* Regex searches (`re.search`) over ASCII file names are modelled as direct
  scans over `String.data`; `\d` is modelled as the ASCII digit class.
-/

namespace CbzRefactor

/-! ### Filename classifier (`is_special_file`, `is_volume_file`,
`extract_volume_number`, lines 12-31) -/

/-- Scan for the regex `(?i)SP\d{2}` (`re.search`): some position holds
`S`/`s`, `P`/`p`, then two ASCII digits. -/
def isSpecialAux : List Char → Bool
  | a :: b :: c :: d :: rest =>
    ((a == 'S' || a == 's') && (b == 'P' || b == 'p') && c.isDigit && d.isDigit)
      || isSpecialAux (b :: c :: d :: rest)
  | _ => false

/-- `is_special_file(filename)`: `re.search(r'(?i)SP\d{2}', filename)` is a
match. -/
def is_special_file (filename : String) : Bool :=
  isSpecialAux filename.data

/-- Leftmost match of `(?i)V(\d+)`: find the first `V`/`v` immediately
followed by an ASCII digit and return the greedy digit run after the `V`. -/
def findVolumeDigits : List Char → Option (List Char)
  | [] => none
  | c :: rest =>
    if (c == 'V' || c == 'v') && (match rest with
        | d :: _ => d.isDigit
        | [] => false) then
      some (rest.takeWhile Char.isDigit)
    else
      findVolumeDigits rest

/-- `is_volume_file(filename)`: `re.search(r'(?i)V\d+', filename)` is a
match. -/
def is_volume_file (filename : String) : Bool :=
  (findVolumeDigits filename.data).isSome

/-- Value of `int(digit_string)` for a non-empty ASCII digit run. -/
def digitsVal (ds : List Char) : ℕ :=
  ds.foldl (fun a c => 10 * a + (c.toNat - 48)) 0

/-- `extract_volume_number(filename)`: the integer value of group 1 of the
first `(?i)V(\d+)` match, or `None`. -/
def extract_volume_number (filename : String) : Option ℕ :=
  (findVolumeDigits filename.data).map digitsVal

/-! ### Batch planner (`calculate_batches`, lines 100-157), over `ℕ` -/

/-- The `num_files <= total_specified` loop (lines 125-132): walk the
specified sizes, appending `min(size, remaining)` and breaking once
`remaining <= 0`.  Over `ℕ` the Python `remaining -= size` going negative
and the `remaining <= 0` break coincide with truncated subtraction and a
`remaining = 0` test. -/
def clampBatches : ℕ → List ℕ → List ℕ
  | _, [] => []
  | remaining, size :: rest =>
    if remaining = 0 then []
    else min size remaining :: clampBatches (remaining - size) rest

/-- The `while remaining > 0` loop (lines 149-155): append `avg`-sized
batches while `remaining > avg`, then one final batch of exactly the
leftover.  For `avg = 0` and `remaining > 0` the Python loop never
terminates; that case is unreachable from positive size specs, and the
model returns `[]` there. -/
def remainderBatches (avg : ℕ) (remaining : ℕ) : List ℕ :=
  if remaining = 0 then []
  else if avg < remaining then
    if avg = 0 then []
    else avg :: remainderBatches avg (remaining - avg)
  else [remaining]
termination_by remaining
decreasing_by omega

/-- `calculate_batches(num_files, batch_sizes, is_repeating, no_extra)`
(lines 100-157), over `ℕ`.  `batch_sizes.headI` models `batch_sizes[0]`
(the parser always supplies a non-empty list).  Nat division at a zero
divisor returns 0 where Python raises `ZeroDivisionError`; that error case
is modelled separately by `calculate_batches_repeatingZ`. -/
def calculate_batches (num_files : ℕ) (batch_sizes : List ℕ)
    (is_repeating : Bool) (no_extra : Bool) : List ℕ :=
  if is_repeating then
    let batch_size := batch_sizes.headI
    let num_batches :=
      if no_extra then num_files / batch_size
      else (num_files + batch_size - 1) / batch_size
    List.replicate num_batches batch_size
  else
    let total_specified := batch_sizes.sum
    if num_files ≤ total_specified then
      clampBatches num_files batch_sizes
    else if no_extra then
      batch_sizes
    else
      let avg_size := batch_sizes.sum / batch_sizes.length
      batch_sizes ++ remainderBatches avg_size (num_files - total_specified)

/-! ### Directory processor: classification and volume numbering
(`process_directory`, lines 227-268) -/

/-- The classification loop (lines 231-237): partition file names into
(regular, special, volume) in order; `is_special_file` is tested first, so
special takes precedence over volume-tagged; volume-tagged files are set
aside only when `avoid_volumes` is on. -/
def classify (avoid_volumes : Bool) : List String → List String × List String × List String
  | [] => ([], [], [])
  | f :: rest =>
    let r := classify avoid_volumes rest
    if is_special_file f then (r.1, f :: r.2.1, r.2.2)
    else if avoid_volumes && is_volume_file f then (r.1, r.2.1, f :: r.2.2)
    else (f :: r.1, r.2.1, r.2.2)

/-- The `max_volume` fold (lines 260-264): highest extracted volume number
among the volume files, starting from 0, ignoring files whose extraction
returns `None`. -/
def maxVolume (volume_files : List String) : ℕ :=
  volume_files.foldl
    (fun m f =>
      match extract_volume_number f with
      | some v => if m < v then v else m
      | none => m)
    0

/-- Lines 256-268: `volume_counter` starts at 1; when `avoid_volumes` is on
and volume files exist and their highest extracted number is positive, it
starts at `max_volume + 1`. -/
def startingVolumeCounter (avoid_volumes : Bool) (volume_files : List String) : ℕ :=
  if avoid_volumes && !volume_files.isEmpty then
    if 0 < maxVolume volume_files then maxVolume volume_files + 1 else 1
  else 1

/-! ### Archive transcoder (`create_cbz_from_memory`, lines 187-201) -/

/-- Python `f"{n:03d}"` for `n : ℕ`: the decimal digits left-padded with
zeros to a minimum width of 3. -/
def pad3 (n : ℕ) : String :=
  let s := toString n
  if s.length < 3 then String.mk (List.replicate (3 - s.length) '0') ++ s else s

/-- Python `str.split(sep)` for a one-character separator: split at every
occurrence, keeping empty parts; never returns an empty list. -/
def splitOnChar (sep : Char) : List Char → List (List Char)
  | [] => [[]]
  | c :: rest =>
    if c == sep then [] :: splitOnChar sep rest
    else
      match splitOnChar sep rest with
      | [] => [[c]]
      | g :: gs => (c :: g) :: gs

/-- The ASCII whitespace characters stripped by Python `str.strip()`. -/
def pyIsSpace (c : Char) : Bool :=
  c == ' ' || c == '\t' || c == '\n' || c == '\r' || c == '\x0b' || c == '\x0c'

/-- Python `str.strip()` (restricted to ASCII whitespace). -/
def pyStrip (cs : List Char) : List Char :=
  ((cs.dropWhile pyIsSpace).reverse.dropWhile pyIsSpace).reverse

/-- `pathlib.PurePath(name).suffix`: on the final `/`-separated component,
the substring from the last `.` onwards, provided that dot is neither the
first nor the last character of the component; otherwise `""`. -/
def pySuffix (name : String) : String :=
  let cs := (splitOnChar '/' name.data).getLastD []
  match cs.reverse.findIdx? (fun c => c == '.') with
  | none => ""
  | some j =>
    let i := cs.length - 1 - j
    if 0 < i ∧ i < cs.length - 1 then String.mk (cs.drop i) else ""

/-- `create_cbz_from_memory(output_path, image_data_list)` (lines 190-196)
viewed as the list of (entry name, payload) pairs written to the archive:
entry `idx` (1-based) of the input `(original_name, data)` becomes
`("page_" ++ idx zero-padded to 3 ++ original extension, data)`. -/
def create_cbz_from_memory (image_data_list : List (String × List ℕ)) :
    List (String × List ℕ) :=
  image_data_list.enum.map fun p =>
    ("page_" ++ pad3 (p.1 + 1) ++ pySuffix p.2.1, p.2.2)

/-- State of the output file during `create_cbz_from_memory` (lines
190-201): `ZipFile(output_path, 'w')` creates/truncates the file at the
output path as soon as it is opened, and each `writestr` adds one renamed
entry.  `failAt = some j` models an exception raised while writing entry
`j` (0-based); the entries already written stay in the file since the code
uses no temporary file or rename.  Result: (contents now at the output
path, whether the call raised).  `none` contents would mean "no file at
the output path". -/
def writeArchiveResult (image_data_list : List (String × List ℕ))
    (failAt : Option ℕ) : Option (List (String × List ℕ)) × Bool :=
  match failAt with
  | none => (some (create_cbz_from_memory image_data_list), false)
  | some j => (some ((create_cbz_from_memory image_data_list).take j), true)

/-! ### Per-batch processing (`process_directory`, lines 287-324) -/

/-- One source archive of a batch: its file name and the result of
`extract_cbz_to_memory` on it — `none` models the extraction raising (the
file is skipped by the `except ... continue` at lines 294-296). -/
structure SourceArchive where
  name : String
  extracted : Option (List (String × List ℕ))
deriving DecidableEq

/-- The `all_images` accumulation (lines 287-296): extend by each
successfully extracted file's images, skipping files whose extraction
raised. -/
def gatherImages (batch : List SourceArchive) : List (String × List ℕ) :=
  batch.foldl
    (fun acc f =>
      match f.extracted with
      | some imgs => acc ++ imgs
      | none => acc)
    []

/-- Lines 287-317 for one batch, assuming the archive write succeeds:
if no images were gathered the batch is skipped (no output, nothing
deleted); otherwise the output archive is built from the gathered images
and, when `delete_originals` is set, every file of the batch is unlinked.
Result: (output archive contents if one was written, names deleted). -/
def processBatch (delete_originals : Bool) (batch : List SourceArchive) :
    Option (List (String × List ℕ)) × List String :=
  let all_images := gatherImages batch
  if all_images.isEmpty then (none, [])
  else
    (some (create_cbz_from_memory all_images),
     if delete_originals then batch.map SourceArchive.name else [])

/-! ### Batch size parsing (`parse_batch_sizes`, lines 59-81) and the
`ℤ`-valued repeating planner -/

/-- A non-empty all-ASCII-digit run parsed to its value, else `none`. -/
def parseDigits (cs : List Char) : Option ℕ :=
  if cs ≠ [] ∧ cs.all Char.isDigit then some (digitsVal cs) else none

/-- Python `int(token)` on an already-stripped token: an optional single
`+`/`-` sign followed by one or more ASCII digits.  (Python `int` also
accepts underscore-grouped and non-ASCII digits; the inputs considered
here are plain ASCII.)  `none` models `ValueError`. -/
def pyInt : List Char → Option ℤ
  | '-' :: rest => (parseDigits rest).map fun n => -(n : ℤ)
  | '+' :: rest => (parseDigits rest).map fun n => (n : ℤ)
  | cs => (parseDigits cs).map fun n => (n : ℤ)

/-- `parse_batch_sizes(batch_str)` (lines 59-81): strip, then either split
on commas into a list of ints (explicit mode, `is_repeating = False`) or
parse a single int (repeating mode, `is_repeating = True`).  `none` models
the raised `ValueError`.  No sign or zero check is performed. -/
def parse_batch_sizes (batch_str : String) : Option (List ℤ × Bool) :=
  let s := pyStrip batch_str.data
  if s.contains ',' then
    ((splitOnChar ',' s).mapM fun x => pyInt (pyStrip x)).map fun sizes => (sizes, false)
  else
    (pyInt s).map fun n => ([n], true)

/-- The `is_repeating` branch of `calculate_batches` (lines 106-118) over
`ℤ`, with Python floor division `//` as `Int.fdiv` and `none` modelling the
`ZeroDivisionError` raised when `batch_size = 0`.  Python `[x] * k` with
`k <= 0` is `[]`, hence `Int.toNat`. -/
def calculate_batches_repeatingZ (num_files : ℤ) (batch_size : ℤ)
    (no_extra : Bool) : Option (List ℤ) :=
  if batch_size = 0 then none
  else if no_extra then
    some (List.replicate (Int.fdiv num_files batch_size).toNat batch_size)
  else
    some (List.replicate (Int.fdiv (num_files + batch_size - 1) batch_size).toNat batch_size)

/-! ### Spec-side definitions used to state the claims -/

/-- The spec's "highest existing volume number among them": maximum of the
volume numbers extracted from a list of file names (0 when none). -/
def highestExtracted (files : List String) : ℕ :=
  (files.filterMap extract_volume_number).foldl max 0

/-- No `V`/`v` in the character list is immediately followed by an ASCII
digit (so `re.search(r'(?i)V\d+', ·)` has nothing to match). -/
def noVDigitPair : List Char → Bool
  | [] => true
  | [_] => true
  | a :: b :: rest =>
    !((a == 'V' || a == 'v') && b.isDigit) && noVDigitPair (b :: rest)

/-! ### Helper lemmas about the planner -/

lemma clampBatches_zero (l : List ℕ) : clampBatches 0 l = [] := by
  cases l <;> simp [clampBatches]

lemma clampBatches_sum (l : List ℕ) : ∀ f, f ≤ l.sum → (clampBatches f l).sum = f := by
  induction l with
  | nil =>
    intro f hf
    simp only [List.sum_nil, Nat.le_zero] at hf
    simp [clampBatches, hf]
  | cons s rest ih =>
    intro f hf
    by_cases h0 : f = 0
    · simp [clampBatches, h0]
    · simp only [clampBatches, if_neg h0, List.sum_cons]
      rcases le_or_lt f s with hfs | hfs
      · have hz : f - s = 0 := by omega
        rw [hz, clampBatches_zero]
        simp only [List.sum_nil]
        omega
      · have hmin : min s f = s := by omega
        rw [hmin, ih (f - s) (by simp only [List.sum_cons] at hf; omega)]
        omega

lemma clampBatches_length (l : List ℕ) : ∀ f, (clampBatches f l).length ≤ l.length := by
  induction l with
  | nil => intro f; simp [clampBatches]
  | cons s rest ih =>
    intro f
    by_cases h0 : f = 0
    · simp [clampBatches, h0]
    · simp only [clampBatches, if_neg h0, List.length_cons]
      exact Nat.succ_le_succ (ih (f - s))

lemma clampBatches_getD_le (l : List ℕ) :
    ∀ f i, (clampBatches f l).getD i 0 ≤ l.getD i 0 := by
  induction l with
  | nil => intro f i; simp [clampBatches]
  | cons s rest ih =>
    intro f i
    by_cases h0 : f = 0
    · simp [clampBatches, h0]
    · simp only [clampBatches, if_neg h0]
      cases i with
      | zero => simp
      | succ i => simpa using ih (f - s) i

lemma clampBatches_getD_eq (l : List ℕ) :
    ∀ f i, i + 1 < (clampBatches f l).length →
      (clampBatches f l).getD i 0 = l.getD i 0 := by
  induction l with
  | nil => intro f i h; simp [clampBatches] at h
  | cons s rest ih =>
    intro f i h
    by_cases h0 : f = 0
    · simp [clampBatches, h0] at h
    · simp only [clampBatches, if_neg h0] at h ⊢
      cases i with
      | zero =>
        simp only [List.length_cons] at h
        have hne : clampBatches (f - s) rest ≠ [] := by
          intro hnil
          rw [hnil] at h
          simp at h
        have hfs : s < f := by
          by_contra hc
          exact hne (by rw [(by omega : f - s = 0), clampBatches_zero])
        simp only [List.getD_cons_zero]
        omega
      | succ i =>
        simp only [List.length_cons, Nat.succ_lt_succ_iff] at h
        simpa using ih (f - s) i h

lemma clampBatches_pos (l : List ℕ) (hpos : ∀ s ∈ l, 0 < s) :
    ∀ f, ∀ b ∈ clampBatches f l, 0 < b := by
  induction l with
  | nil => intro f b hb; simp [clampBatches] at hb
  | cons s rest ih =>
    intro f b hb
    by_cases h0 : f = 0
    · simp [clampBatches, h0] at hb
    · simp only [clampBatches, if_neg h0, List.mem_cons] at hb
      rcases hb with hb | hb
      · have hs : 0 < s := hpos s (by simp)
        subst hb
        omega
      · exact ih (fun x hx => hpos x (by simp [hx])) (f - s) b hb

lemma remainderBatches_struct (avg : ℕ) (ha : 0 < avg) : ∀ rem, 0 < rem →
    ∃ m, remainderBatches avg rem = List.replicate m avg ++ [rem - m * avg] ∧
      0 < rem - m * avg ∧ rem - m * avg ≤ avg ∧ m * avg ≤ rem ∧
      (remainderBatches avg rem).sum = rem := by
  intro rem
  induction rem using Nat.strong_induction_on with
  | _ rem ih =>
    intro hr
    rw [remainderBatches, if_neg (by omega : ¬ rem = 0)]
    by_cases h2 : avg < rem
    · rw [if_pos h2, if_neg (by omega : ¬ avg = 0)]
      obtain ⟨m, hEq, hp, hle, hml, hsum⟩ := ih (rem - avg) (by omega) (by omega)
      have hsm : (m + 1) * avg = m * avg + avg := by ring
      refine ⟨m + 1, ?_, by omega, by omega, by omega, ?_⟩
      · rw [hEq, List.replicate_succ, List.cons_append,
          (by omega : rem - avg - m * avg = rem - (m + 1) * avg)]
      · rw [List.sum_cons, hsum]
        omega
    · rw [if_neg h2]
      exact ⟨0, by simp, by simpa using hr, by omega, by omega, by simp⟩

lemma length_le_sum (l : List ℕ) (hpos : ∀ s ∈ l, 0 < s) : l.length ≤ l.sum := by
  induction l with
  | nil => simp
  | cons s rest ih =>
    simp only [List.length_cons, List.sum_cons]
    have hs : 0 < s := hpos s (by simp)
    have := ih (fun x hx => hpos x (by simp [hx]))
    omega

lemma avg_pos (l : List ℕ) (hne : l ≠ []) (hpos : ∀ s ∈ l, 0 < s) :
    0 < l.sum / l.length := by
  have hl : 0 < l.length := List.length_pos.mpr hne
  have := length_le_sum l hpos
  exact (Nat.le_div_iff_mul_le hl).mpr (by omega)

lemma calculate_batches_repeating_eq (f : ℕ) (l : List ℕ) (ne : Bool) :
    calculate_batches f l true ne
      = List.replicate (if ne then f / l.headI else (f + l.headI - 1) / l.headI)
          l.headI := by
  unfold calculate_batches
  cases ne <;> simp

lemma calculate_batches_le_eq (f : ℕ) (l : List ℕ) (ne : Bool) (h : f ≤ l.sum) :
    calculate_batches f l false ne = clampBatches f l := by
  unfold calculate_batches
  simp [h]

lemma calculate_batches_noextra_eq (f : ℕ) (l : List ℕ) (h : l.sum < f) :
    calculate_batches f l false true = l := by
  unfold calculate_batches
  simp [Nat.not_le.mpr h]

lemma calculate_batches_extra_eq (f : ℕ) (l : List ℕ) (h : l.sum < f) :
    calculate_batches f l false false
      = l ++ remainderBatches (l.sum / l.length) (f - l.sum) := by
  unfold calculate_batches
  simp [Nat.not_le.mpr h]

/-! ### The claims -/

/-- C1.  Batch Planner, repeating mode: for every `fileCount ≥ 0` and
repeating spec of single size `n > 0`, the plan is
`floor(fileCount / n)` batches of size `n` when remainder suppression is
on, and with suppression off it is `m` batches of size `n` where
`n * m = fileCount + r` with `0 ≤ r < n` (i.e. `ceil(fileCount / n)`
batches, the plan summing to `fileCount + r`, the overrun lying only on
the final batch since the caller clamps consumption). -/
theorem C1_repeating_mode (fileCount n : ℕ) (hn : 0 < n) :
    calculate_batches fileCount [n] true true = List.replicate (fileCount / n) n ∧
    ∃ m r, r < n ∧ n * m = fileCount + r ∧
      calculate_batches fileCount [n] true false = List.replicate m n ∧
      (calculate_batches fileCount [n] true false).sum = fileCount + r := by
  have h := Nat.div_add_mod (fileCount + n - 1) n
  have hm : (fileCount + n - 1) % n < n := Nat.mod_lt _ hn
  have key : n * ((fileCount + n - 1) / n)
      = fileCount + (n - 1 - (fileCount + n - 1) % n) := by
    generalize n * ((fileCount + n - 1) / n) = t at h ⊢
    omega
  refine ⟨by simp [calculate_batches], (fileCount + n - 1) / n,
    n - 1 - (fileCount + n - 1) % n, by omega, key, by simp [calculate_batches], ?_⟩
  have hcb : calculate_batches fileCount [n] true false
      = List.replicate ((fileCount + n - 1) / n) n := by simp [calculate_batches]
  rw [hcb, List.sum_replicate, smul_eq_mul, Nat.mul_comm, key]

theorem C1_repeating_mode_witness :
    calculate_batches 7 [3] true true = List.replicate (7 / 3) 3 ∧
    ∃ m r, r < 3 ∧ 3 * m = 7 + r ∧
      calculate_batches 7 [3] true false = List.replicate m 3 ∧
      (calculate_batches 7 [3] true false).sum = 7 + r :=
  C1_repeating_mode 7 3 (by decide)

/-- C2.  Batch Planner, explicit-list mode with `fileCount ≤ sum(spec)`:
for positive sizes and either suppression flag, the plan sums to exactly
`fileCount`, has at most `k` batches, every batch is bounded by its
nominal size, and every batch except possibly the last equals its nominal
size (prefix-consistent clamped copy of the spec). -/
theorem C2_explicit_clamped (spec : List ℕ) (fileCount : ℕ) (suppress : Bool)
    (hpos : ∀ s ∈ spec, 0 < s) (hle : fileCount ≤ spec.sum) :
    (calculate_batches fileCount spec false suppress).sum = fileCount ∧
    (calculate_batches fileCount spec false suppress).length ≤ spec.length ∧
    (∀ i, (calculate_batches fileCount spec false suppress).getD i 0 ≤ spec.getD i 0) ∧
    (∀ i, i + 1 < (calculate_batches fileCount spec false suppress).length →
      (calculate_batches fileCount spec false suppress).getD i 0 = spec.getD i 0) := by
  rw [calculate_batches_le_eq fileCount spec suppress hle]
  exact ⟨clampBatches_sum spec fileCount hle, clampBatches_length spec fileCount,
    fun i => clampBatches_getD_le spec fileCount i,
    fun i hi => clampBatches_getD_eq spec fileCount i hi⟩

theorem C2_explicit_clamped_witness :
    (calculate_batches 4 [2, 3] false false).sum = 4 ∧
    (calculate_batches 4 [2, 3] false false).length ≤ [2, 3].length ∧
    (∀ i, (calculate_batches 4 [2, 3] false false).getD i 0 ≤ [2, 3].getD i 0) ∧
    (∀ i, i + 1 < (calculate_batches 4 [2, 3] false false).length →
      (calculate_batches 4 [2, 3] false false).getD i 0 = [2, 3].getD i 0) :=
  C2_explicit_clamped [2, 3] 4 false (by decide) (by decide)

/-- C3.  Batch Planner, explicit-list mode with `fileCount > sum(spec)` and
suppression off: the plan is the spec unchanged followed by `m` batches of
size `avg = floor(sum(spec) / k)` and one final appended batch equal to the
leftover (positive, never exceeding `avg`), the whole plan summing to
`fileCount`; in particular spec `[2, 3]` with 10 files yields
`[2, 3, 2, 2, 1]`. -/
theorem C3_explicit_overflow (spec : List ℕ) (fileCount : ℕ)
    (hne : spec ≠ []) (hpos : ∀ s ∈ spec, 0 < s) (hgt : spec.sum < fileCount) :
    (∃ m, calculate_batches fileCount spec false false
        = spec ++ List.replicate m (spec.sum / spec.length)
            ++ [fileCount - spec.sum - m * (spec.sum / spec.length)] ∧
      0 < fileCount - spec.sum - m * (spec.sum / spec.length) ∧
      fileCount - spec.sum - m * (spec.sum / spec.length) ≤ spec.sum / spec.length ∧
      (calculate_batches fileCount spec false false).sum = fileCount) ∧
    calculate_batches 10 [2, 3] false false = [2, 3, 2, 2, 1] := by
  have hcb := calculate_batches_extra_eq fileCount spec hgt
  obtain ⟨m, hEq, hp, hle, hml, hsum⟩ :=
    remainderBatches_struct (spec.sum / spec.length) (avg_pos spec hne hpos)
      (fileCount - spec.sum) (by omega)
  refine ⟨⟨m, ?_, ?_, ?_, ?_⟩, by simp [calculate_batches, remainderBatches]⟩
  · rw [hcb, hEq, List.append_assoc]
  · omega
  · omega
  · rw [hcb, List.sum_append, hsum]
    omega

theorem C3_explicit_overflow_witness :
    (∃ m, calculate_batches 10 [2, 3] false false
        = [2, 3] ++ List.replicate m ([2, 3].sum / [2, 3].length)
            ++ [10 - [2, 3].sum - m * ([2, 3].sum / [2, 3].length)] ∧
      0 < 10 - [2, 3].sum - m * ([2, 3].sum / [2, 3].length) ∧
      10 - [2, 3].sum - m * ([2, 3].sum / [2, 3].length) ≤ [2, 3].sum / [2, 3].length ∧
      (calculate_batches 10 [2, 3] false false).sum = 10) ∧
    calculate_batches 10 [2, 3] false false = [2, 3, 2, 2, 1] :=
  C3_explicit_overflow [2, 3] 10 (by decide) (by decide) (by decide)

/-- C4.  Batch Planner output invariant: for every file count, every spec
of positive sizes and both mode flags, the plan never contains a batch of
size `≤ 0`, and a file count of 0 yields an empty plan. -/
theorem C4_plan_invariant (fileCount : ℕ) (spec : List ℕ)
    (is_repeating no_extra : Bool)
    (hne : spec ≠ []) (hpos : ∀ s ∈ spec, 0 < s) :
    (∀ b ∈ calculate_batches fileCount spec is_repeating no_extra, 0 < b) ∧
    calculate_batches 0 spec is_repeating no_extra = [] := by
  obtain ⟨s, rest, rfl⟩ := List.exists_cons_of_ne_nil hne
  have hs : 0 < s := hpos s (by simp)
  cases is_repeating with
  | true =>
    rw [calculate_batches_repeating_eq, calculate_batches_repeating_eq]
    constructor
    · intro b hb
      have := List.eq_of_mem_replicate hb
      subst this
      simpa using hs
    · have h2 : (s - 1) / s = 0 := Nat.div_eq_of_lt (by omega)
      cases no_extra <;> simp [h2]
  | false =>
    constructor
    · intro b hb
      rcases Nat.lt_or_ge ((s :: rest).sum) fileCount with hlt | hge
      · cases no_extra with
        | true =>
          rw [calculate_batches_noextra_eq _ _ hlt] at hb
          exact hpos b hb
        | false =>
          rw [calculate_batches_extra_eq _ _ hlt, List.mem_append] at hb
          rcases hb with hb | hb
          · exact hpos b hb
          · obtain ⟨m, hEq, hp, hle', hml, hsum⟩ :=
              remainderBatches_struct ((s :: rest).sum / (s :: rest).length)
                (avg_pos (s :: rest) hne hpos) (fileCount - (s :: rest).sum)
                (by omega)
            rw [hEq, List.mem_append] at hb
            rcases hb with hb | hb
            · have := List.eq_of_mem_replicate hb
              subst this
              exact avg_pos (s :: rest) hne hpos
            · simp only [List.mem_singleton] at hb
              subst hb
              exact hp
      · rw [calculate_batches_le_eq _ _ _ hge] at hb
        exact clampBatches_pos (s :: rest) hpos fileCount b hb
    · rw [calculate_batches_le_eq _ _ _ (Nat.zero_le _), clampBatches_zero]

theorem C4_plan_invariant_witness :
    (∀ b ∈ calculate_batches 7 [3] true false, 0 < b) ∧
    calculate_batches 0 [3] true false = [] :=
  C4_plan_invariant 7 [3] true false (by decide) (by decide)

/-! ### Lemmas for the directory processor and classifier -/

lemma classify_vol_mem (av : Bool) (files : List String) :
    ∀ f ∈ (classify av files).2.2,
      is_volume_file f = true ∧ is_special_file f = false := by
  induction files with
  | nil => intro f hf; simp [classify] at hf
  | cons g rest ih =>
    intro f hf
    simp only [classify] at hf
    by_cases h1 : is_special_file g
    · rw [if_pos h1] at hf
      exact ih f hf
    · rw [if_neg h1] at hf
      by_cases h2 : (av && is_volume_file g) = true
      · rw [if_pos h2] at hf
        simp only [List.mem_cons] at hf
        rcases hf with rfl | hf
        · exact ⟨(Bool.and_eq_true _ _).mp h2 |>.2, by simpa using h1⟩
        · exact ih f hf
      · rw [if_neg h2] at hf
        exact ih f hf

lemma maxVolume_go (l : List String) : ∀ init,
    l.foldl
      (fun m f =>
        match extract_volume_number f with
        | some v => if m < v then v else m
        | none => m)
      init
    = (l.filterMap extract_volume_number).foldl max init := by
  induction l with
  | nil => intro init; simp
  | cons g rest ih =>
    intro init
    cases hg : extract_volume_number g with
    | none => simp [hg, ih]
    | some v =>
      simp only [List.foldl_cons, List.filterMap_cons, hg]
      rw [ih]
      congr 1
      split <;> omega

lemma maxVolume_eq (l : List String) : maxVolume l = highestExtracted l :=
  maxVolume_go l 0

lemma startingVolumeCounter_eq (vol : List String) :
    startingVolumeCounter true vol
      = if 0 < highestExtracted vol then highestExtracted vol + 1 else 1 := by
  cases vol with
  | nil => simp [startingVolumeCounter, highestExtracted]
  | cons g rest =>
    unfold startingVolumeCounter
    rw [maxVolume_eq]
    simp

/-- C5.  Directory Processor volume numbering: every file set aside as
volume-tagged is volume-tagged and not special (special takes precedence);
the starting volume number is `max + 1` where `max` is the highest volume
number extracted from the set-aside files, defaulting to 1 when no
positive number is found (in particular when no volume-tagged file
exists); and on `["A SP01.cbz", "A V002.cbz", "A 001.cbz", "A 002.cbz"]`
the special file goes to Specials, `A V002.cbz` is skipped, the regular
files are `["A 001.cbz", "A 002.cbz"]` and new volumes start at `V003`. -/
theorem C5_volume_numbering (files : List String) :
    (∀ f ∈ (classify true files).2.2,
      is_volume_file f = true ∧ is_special_file f = false) ∧
    startingVolumeCounter true (classify true files).2.2
      = (if 0 < highestExtracted (classify true files).2.2
         then highestExtracted (classify true files).2.2 + 1 else 1) ∧
    classify true ["A SP01.cbz", "A V002.cbz", "A 001.cbz", "A 002.cbz"]
      = (["A 001.cbz", "A 002.cbz"], ["A SP01.cbz"], ["A V002.cbz"]) ∧
    startingVolumeCounter true ["A V002.cbz"] = 3 :=
  ⟨classify_vol_mem true files, startingVolumeCounter_eq _, by decide, by decide⟩

theorem C5_volume_numbering_witness :
    startingVolumeCounter true
        (classify true ["A SP01.cbz", "A V002.cbz", "A 001.cbz", "A 002.cbz"]).2.2
      = (if 0 < highestExtracted
            (classify true ["A SP01.cbz", "A V002.cbz", "A 001.cbz", "A 002.cbz"]).2.2
         then highestExtracted
            (classify true ["A SP01.cbz", "A V002.cbz", "A 001.cbz", "A 002.cbz"]).2.2 + 1
         else 1) :=
  (C5_volume_numbering ["A SP01.cbz", "A V002.cbz", "A 001.cbz", "A 002.cbz"]).2.1

/-- C6.  Archive rebuild round-trip: the output archive has exactly one
entry per input image pair, in the same order; entry `i` (0-based) keeps
its payload bytes unchanged and is renamed `page_NNN.<ext>` where `NNN` is
the 1-based position zero-padded to 3 digits and `<ext>` is the original
name's extension. -/
theorem C6_roundtrip (imgs : List (String × List ℕ)) :
    (create_cbz_from_memory imgs).length = imgs.length ∧
    ∀ i, i < imgs.length →
      (create_cbz_from_memory imgs).getD i ("", [])
        = ("page_" ++ pad3 (i + 1) ++ pySuffix (imgs.getD i ("", [])).1,
           (imgs.getD i ("", [])).2) := by
  constructor
  · simp [create_cbz_from_memory]
  · intro i hi
    have h1 : imgs[i]? = some (imgs.get ⟨i, hi⟩) := List.getElem?_eq_getElem hi
    simp [create_cbz_from_memory, List.getD_eq_getD_get?, List.getElem?_map,
      List.getElem?_enum, h1]

theorem C6_roundtrip_witness :
    (create_cbz_from_memory [("x/a.png", [1, 2]), ("b.JPG", [3])]).length = 2 ∧
    (create_cbz_from_memory [("x/a.png", [1, 2]), ("b.JPG", [3])]).getD 1 ("", [])
      = ("page_" ++ pad3 2 ++ pySuffix "b.JPG", [3]) := by
  refine ⟨?_, ?_⟩
  · simpa using (C6_roundtrip [("x/a.png", [1, 2]), ("b.JPG", [3])]).1
  · simpa using (C6_roundtrip [("x/a.png", [1, 2]), ("b.JPG", [3])]).2 1 (by decide)

/-- C7 counterexample.  The claim "no partial or corrupt output archive is
left in place at the output path on a write failure" is false: failing
while writing the second entry of a two-image batch leaves a file at the
output path holding just the first renamed entry — not the unchanged
(absent) filesystem state. -/
theorem C7_counterexample :
    (writeArchiveResult [("a.png", [1]), ("b.png", [2])] (some 1)).2 = true ∧
    (writeArchiveResult [("a.png", [1]), ("b.png", [2])] (some 1)).1
      = some [("page_001.png", [1])] ∧
    (writeArchiveResult [("a.png", [1]), ("b.png", [2])] (some 1)).1 ≠ none := by
  refine ⟨rfl, by decide, by decide⟩

/-- C7 amended.  A failed write while adding entry `j` reports the error
and leaves at the output path a partial archive holding exactly the first
`j` renamed entries (a strict prefix of the intended output); the
surrounding loop logs such a failure and continues with later batches. -/
theorem C7_amended_partial_left (entries : List (String × List ℕ)) (j : ℕ)
    (hj : j < entries.length) :
    (writeArchiveResult entries (some j)).2 = true ∧
    (writeArchiveResult entries (some j)).1
      = some ((create_cbz_from_memory entries).take j) ∧
    ∃ p, (writeArchiveResult entries (some j)).1 = some p ∧
      p.length = j ∧ p.length < (create_cbz_from_memory entries).length := by
  have hlen : (create_cbz_from_memory entries).length = entries.length := by
    simp [create_cbz_from_memory]
  refine ⟨rfl, rfl, (create_cbz_from_memory entries).take j, rfl, ?_, ?_⟩ <;>
    rw [List.length_take] <;> omega

theorem C7_amended_partial_left_witness :
    (writeArchiveResult [("a.png", [1]), ("b.png", [2])] (some 1)).2 = true ∧
    (writeArchiveResult [("a.png", [1]), ("b.png", [2])] (some 1)).1
      = some ((create_cbz_from_memory [("a.png", [1]), ("b.png", [2])]).take 1) ∧
    ∃ p, (writeArchiveResult [("a.png", [1]), ("b.png", [2])] (some 1)).1 = some p ∧
      p.length = 1 ∧
      p.length < (create_cbz_from_memory [("a.png", [1]), ("b.png", [2])]).length :=
  C7_amended_partial_left [("a.png", [1]), ("b.png", [2])] 1 (by decide)

/-! ### Lemmas for the classifier false-positive claim -/

lemma findVolumeDigits_none (cs : List Char) (h : noVDigitPair cs = true) :
    findVolumeDigits cs = none := by
  induction cs with
  | nil => rfl
  | cons c rest ih =>
    cases rest with
    | nil => simp [findVolumeDigits]
    | cons d rest2 =>
      simp only [noVDigitPair, Bool.and_eq_true, Bool.not_eq_eq_eq_not,
        Bool.not_true] at h
      have step : findVolumeDigits (c :: d :: rest2)
          = if ((c == 'V' || c == 'v') && d.isDigit) = true
            then some ((d :: rest2).takeWhile Char.isDigit)
            else findVolumeDigits (d :: rest2) := rfl
      rw [step, if_neg (by simp [h.1]), ih h.2]

/-- C8 counterexample.  The claim says a filename containing `Vip` (with
no other V-plus-digit occurrence) registers a volume-tag match; in fact
`is_volume_file "Vip.cbz"` is `false` — the pattern `V\d+` needs at least
one digit after the `V`, and `Vip.cbz` has no `V`/`v` followed by a
digit. -/
theorem C8_counterexample :
    is_volume_file "Vip.cbz" = false ∧ noVDigitPair "Vip.cbz".data = true := by
  refine ⟨by decide, by decide⟩

/-- C8 amended.  A filename with no `V`/`v` immediately followed by a
digit — in particular one merely containing `"Vip"` — does **not**
register a volume-tag match: `is_volume_file` returns `false`, since
`(?i)V\d+` requires at least one digit after the `V`. -/
theorem C8_amended_no_false_positive (s : String)
    (h : noVDigitPair s.data = true) : is_volume_file s = false := by
  unfold is_volume_file
  rw [findVolumeDigits_none s.data h]
  rfl

theorem C8_amended_no_false_positive_witness : is_volume_file "Vip.cbz" = false :=
  C8_amended_no_false_positive "Vip.cbz" (by decide)

/-! ### Lemmas for per-batch deletion -/

lemma gatherImages_go (batch : List SourceArchive) :
    ∀ init : List (String × List ℕ),
      batch.foldl
        (fun acc f =>
          match f.extracted with
          | some imgs => acc ++ imgs
          | none => acc)
        init
      = init ++ (batch.filterMap SourceArchive.extracted).flatten := by
  induction batch with
  | nil => intro init; simp
  | cons g rest ih =>
    intro init
    cases hg : g.extracted with
    | none => simp [hg, ih]
    | some imgs => simp [hg, ih, List.append_assoc]

lemma gatherImages_eq (batch : List SourceArchive) :
    gatherImages batch = (batch.filterMap SourceArchive.extracted).flatten := by
  simpa using gatherImages_go batch []

/-- C9.  Corrupt sources are still deleted: in a batch where one archive
fails extraction but another contributes at least one image, the output
archive is built from the extractable images only, yet with
delete-sources-after-merge on, every file of the batch — including the
corrupt one — is deleted after the output archive is written. -/
theorem C9_corrupt_source_deleted (batch : List SourceArchive)
    (f : SourceArchive) (hf : f ∈ batch) (hcorrupt : f.extracted = none)
    (g : SourceArchive) (hg : g ∈ batch) (l : List (String × List ℕ))
    (hgl : g.extracted = some l) (hlne : l ≠ []) :
    (processBatch true batch).1 = some (create_cbz_from_memory (gatherImages batch)) ∧
    (processBatch true batch).2 = batch.map SourceArchive.name ∧
    f.name ∈ (processBatch true batch).2 := by
  have hmem : l ∈ batch.filterMap SourceArchive.extracted :=
    List.mem_filterMap.mpr ⟨g, hg, hgl⟩
  obtain ⟨x, hx⟩ := List.exists_mem_of_ne_nil l hlne
  have hne : gatherImages batch ≠ [] := by
    rw [gatherImages_eq]
    intro hnil
    have : x ∈ (batch.filterMap SourceArchive.extracted).flatten :=
      List.mem_flatten.mpr ⟨l, hmem, hx⟩
    rw [hnil] at this
    exact absurd this (List.not_mem_nil x)
  have hEmpty : (gatherImages batch).isEmpty = false := by
    rw [Bool.eq_false_iff]
    intro hc
    exact hne (List.isEmpty_iff.mp hc)
  have hPB : processBatch true batch
      = (some (create_cbz_from_memory (gatherImages batch)),
         batch.map SourceArchive.name) := by
    simp [processBatch, hEmpty]
  refine ⟨by rw [hPB], by rw [hPB], ?_⟩
  rw [hPB]
  exact List.mem_map_of_mem SourceArchive.name hf

theorem C9_corrupt_source_deleted_witness :
    (processBatch true
        [⟨"bad.cbz", none⟩, ⟨"good.cbz", some [("p.png", [9])]⟩]).1
      = some (create_cbz_from_memory
          (gatherImages [⟨"bad.cbz", none⟩, ⟨"good.cbz", some [("p.png", [9])]⟩])) ∧
    (processBatch true
        [⟨"bad.cbz", none⟩, ⟨"good.cbz", some [("p.png", [9])]⟩]).2
      = [⟨"bad.cbz", none⟩, ⟨"good.cbz", some [("p.png", [9])]⟩].map
          SourceArchive.name ∧
    SourceArchive.name ⟨"bad.cbz", none⟩
      ∈ (processBatch true
          [⟨"bad.cbz", none⟩, ⟨"good.cbz", some [("p.png", [9])]⟩]).2 :=
  C9_corrupt_source_deleted _ ⟨"bad.cbz", none⟩ (by simp) rfl
    ⟨"good.cbz", some [("p.png", [9])]⟩ (by simp) [("p.png", [9])] rfl (by simp)

/-- C10.  Non-positive sizes are not rejected: `parse_batch_sizes`
succeeds on `"0"` and on negative tokens, returning the values verbatim;
consequently the repeating branch of `calculate_batches` with size 0 hits
its division-by-zero error for any positive file count (the planner is
not total over parser-accepted inputs). -/
theorem C10_parser_accepts_nonpositive :
    parse_batch_sizes "0" = some ([0], true) ∧
    parse_batch_sizes "-3" = some ([-3], true) ∧
    parse_batch_sizes "4,0,-2" = some ([4, 0, -2], false) ∧
    ∀ (num_files : ℤ) (no_extra : Bool), 0 < num_files →
      calculate_batches_repeatingZ num_files 0 no_extra = none := by
  refine ⟨by decide, by decide, by decide, ?_⟩
  intro nf ne h
  unfold calculate_batches_repeatingZ
  simp

theorem C10_parser_accepts_nonpositive_witness :
    (0 : ℤ) < 5 ∧ calculate_batches_repeatingZ 5 0 true = none :=
  ⟨by decide, C10_parser_accepts_nonpositive.2.2.2 5 true (by decide)⟩

end CbzRefactor
